/-
Verification of the `stat_functions` library (log-beta / beta, the incomplete
beta function ratio `betain`, the normal CDF `pnorm`, and the Student's-t
layer) against its natural-language specification.

Modelling conventions:
* Finite double-precision values are idealised as exact rationals (and, for
  the transcendental-identity claim about the Student's-t constants, as real
  numbers); the numeric core is written polymorphically over a linear ordered
  field with a floor so that both instantiations share one embedding.
* The transcendental primitives `exp`, `ln`, `lgamma` of the source are
  abstract function parameters (at ℝ they are instantiated with the genuine
  `Real.exp`, `Real.log`, `log ∘ Real.Gamma`).
* IEEE special values (NaN, ±∞) matter only at the public entry points that
  inspect them; they are modelled by the dedicated type `F64` whose
  comparisons follow IEEE semantics (every comparison with NaN is false).
* The unbounded `loop` of `betain` is modelled with explicit fuel; theorems
  about the loop quantify over the fuel.
-/
import Mathlib

set_option maxRecDepth 4000
set_option linter.unusedSectionVars false

namespace StatFunctions

/-- The error enumeration of `src/error.rs`. -/
inductive StatFuncError where
  | invalidBetaParameters
  | invalidProbability
  | invalidStudentsTParameter
deriving DecidableEq, Repr

instance {ε σ : Type} [DecidableEq ε] [DecidableEq σ] : DecidableEq (Except ε σ) := fun a b =>
  match a, b with
  | .error e, .error f =>
    if h : e = f then isTrue (congrArg Except.error h)
    else isFalse (fun hh => h (Except.error.inj hh))
  | .error _, .ok _ => isFalse (fun hh => Except.noConfusion hh)
  | .ok _, .error _ => isFalse (fun hh => Except.noConfusion hh)
  | .ok u, .ok w =>
    if h : u = w then isTrue (congrArg Except.ok h)
    else isFalse (fun hh => h (Except.ok.inj hh))

/-! ## The `F64` model of IEEE doubles (payload idealised as an exact rational)

Only the structure that the claims about special values need: arithmetic with
NaN/infinity propagation and IEEE comparisons (NaN incomparable). -/

/-- A double: a finite value (idealised as an exact rational), one of the two
infinities, or NaN.  (The sign of zero is irrelevant to every claim here.) -/
inductive F64 where
  | finite (q : ℚ)
  | posInf
  | negInf
  | nan
deriving DecidableEq, Repr

namespace F64

/-- IEEE `<=`: any comparison involving NaN is false. -/
def le : F64 → F64 → Bool
  | nan, _ => false
  | _, nan => false
  | negInf, _ => true
  | _, negInf => false
  | _, posInf => true
  | posInf, _ => false
  | finite a, finite b => decide (a ≤ b)

/-- IEEE `<`: any comparison involving NaN is false. -/
def lt : F64 → F64 → Bool
  | nan, _ => false
  | _, nan => false
  | negInf, negInf => false
  | negInf, _ => true
  | _, negInf => false
  | posInf, _ => false
  | _, posInf => true
  | finite a, finite b => decide (a < b)

/-- IEEE addition (finite arithmetic idealised as exact). -/
def add : F64 → F64 → F64
  | nan, _ => nan
  | _, nan => nan
  | posInf, negInf => nan
  | negInf, posInf => nan
  | posInf, _ => posInf
  | _, posInf => posInf
  | negInf, _ => negInf
  | _, negInf => negInf
  | finite a, finite b => finite (a + b)

/-- IEEE negation. -/
def neg : F64 → F64
  | nan => nan
  | posInf => negInf
  | negInf => posInf
  | finite a => finite (-a)

/-- IEEE subtraction. -/
def sub (x y : F64) : F64 := add x (neg y)

/-- IEEE multiplication (finite arithmetic idealised as exact). -/
def mul : F64 → F64 → F64
  | nan, _ => nan
  | _, nan => nan
  | posInf, posInf => posInf
  | posInf, negInf => negInf
  | negInf, posInf => negInf
  | negInf, negInf => posInf
  | posInf, finite b => if b = 0 then nan else if 0 < b then posInf else negInf
  | finite a, posInf => if a = 0 then nan else if 0 < a then posInf else negInf
  | negInf, finite b => if b = 0 then nan else if 0 < b then negInf else posInf
  | finite a, negInf => if a = 0 then nan else if 0 < a then negInf else posInf
  | finite a, finite b => finite (a * b)

/-- IEEE division (finite arithmetic idealised as exact; the sign of zero is
not modelled, so a zero divisor counts as `+0` and `x / ±∞` is `0`). -/
def div : F64 → F64 → F64
  | nan, _ => nan
  | _, nan => nan
  | posInf, posInf => nan
  | posInf, negInf => nan
  | negInf, posInf => nan
  | negInf, negInf => nan
  | posInf, finite b => if 0 ≤ b then posInf else negInf
  | negInf, finite b => if 0 ≤ b then negInf else posInf
  | finite _, posInf => finite 0
  | finite _, negInf => finite 0
  | finite a, finite b =>
    if b = 0 then (if a = 0 then nan else if 0 < a then posInf else negInf)
    else finite (a / b)

/-- `f64::is_infinite`. -/
def isInfinite : F64 → Bool
  | posInf => true
  | negInf => true
  | _ => false

/-- `f64::is_nan`. -/
def isNan : F64 → Bool
  | nan => true
  | _ => false

/-- `f64::is_sign_negative` (only queried on infinities in the source). -/
def isSignNegative : F64 → Bool
  | negInf => true
  | posInf => false
  | nan => false
  | finite a => decide (a < 0)

/-- `libm::lgamma` lifted to doubles: NaN propagates, `lgamma(±∞) = +∞`;
on finite arguments the abstract finite log-gamma `flgamma` is used. -/
def lgammaF (flgamma : ℚ → ℚ) : F64 → F64
  | nan => nan
  | posInf => posInf
  | negInf => posInf
  | finite a => finite (flgamma a)

/-- `f64::exp` lifted to doubles: NaN propagates, `exp(+∞)=+∞`, `exp(-∞)=0`;
on finite arguments the abstract finite exponential `fexp` is used. -/
def expF (fexp : ℚ → ℚ) : F64 → F64
  | nan => nan
  | posInf => posInf
  | negInf => finite 0
  | finite a => finite (fexp a)

/-- `f64::ln` lifted to doubles: NaN propagates, `ln(+∞)=+∞`, `ln(-∞)=NaN`,
`ln` of a negative value is NaN, `ln 0 = -∞`; on positive finite arguments the
abstract finite logarithm `flog` is used. -/
def logF (flog : ℚ → ℚ) : F64 → F64
  | nan => nan
  | posInf => posInf
  | negInf => nan
  | finite a => if a < 0 then nan else if a = 0 then negInf else finite (flog a)

end F64

/-! ## Polymorphic numeric core

The finite-arithmetic parts of the source (`_lbeta`, the `betain` loop,
`_pnorm`, the Student's-t formulas) are embedded over an arbitrary linear
ordered field with floor, so they can be read both at ℚ (executable, for
witnesses and counterexamples) and at ℝ (for the transcendental identity
behind the free-function/method equivalence). -/

section Core

variable {α : Type} [LinearOrderedField α] [FloorRing α]

/-- Truncation toward zero: the behaviour of `as i64` and `f64::trunc` on
in-range arguments. -/
def truncToInt (t : α) : ℤ := if 0 ≤ t then ⌊t⌋ else ⌈t⌉

/-- `_lbeta` of `src/beta.rs`: `lgamma(p) + lgamma(q) - lgamma(p + q)`. -/
def lbetaCore (flgamma : α → α) (p q : α) : α := flgamma p + flgamma q - flgamma (p + q)

/-- `check_beta_params` of `src/beta.rs` (finite-argument view; the IEEE
variant over `F64` is `checkBetaParamsF` below). -/
def checkBetaParams (p q : α) : Except StatFuncError Unit :=
  if p ≤ 0 ∨ q ≤ 0 then .error .invalidBetaParameters else .ok ()

/-- `lbeta` of `src/beta.rs` (finite-argument view). -/
def lbeta (flgamma : α → α) (p q : α) : Except StatFuncError α :=
  match checkBetaParams p q with
  | .error e => .error e
  | .ok _ => .ok (lbetaCore flgamma p q)

/-- `beta` of `src/beta.rs` (finite-argument view). -/
def beta (fexp flgamma : α → α) (p q : α) : Except StatFuncError α :=
  (lbeta flgamma p q).map fexp

/-! ### The `betain` loop (`src/beta.rs`, algorithm AS 63) -/

/-- The working parameters fixed by `betain`'s tail selection:
`(xx, cx, pp, qq, flip)` plus the resolved `lnbeta`. -/
structure BetainCtx (α : Type) where
  xx : α
  cx : α
  pp : α
  qq : α
  flip : Bool
  lnbeta : α
deriving DecidableEq

/-- The mutable variables of the `betain` loop. -/
structure BetainState (α : Type) where
  term : α
  ai : α
  value : α
  ns : ℤ
  temp : α
  rx : α
  psq : α
deriving DecidableEq

/-- The convergence tolerance of `betain`: `accuracy = 1.0e-14`. -/
def betainAccuracy : ℚ := 1e-14

/-- Tail selection of `betain`: with `psq = p + q`, if `p < psq * x` work on
the complementary tail `(1-x, x, q, p)` and flip the result, else on
`(x, 1-x, p, q)` directly. -/
def betainCtxOf (p q x lnbeta : α) : BetainCtx α :=
  let psq := p + q
  if p < psq * x then ⟨1 - x, x, q, p, true, lnbeta⟩
  else ⟨x, 1 - x, p, q, false, lnbeta⟩

/-- The initial loop state of `betain`: `term = ai = value = 1`,
`ns = (qq + cx * psq) as i64`, `temp = qq - ai`,
`rx = if ns == 0 { xx } else { xx / cx }`. -/
def betainInit (p q : α) (c : BetainCtx α) : BetainState α :=
  let psq := p + q
  let ns := truncToInt (c.qq + c.cx * psq)
  { term := 1, ai := 1, value := 1, ns := ns, temp := c.qq - 1,
    rx := if ns = 0 then c.xx else c.xx / c.cx, psq := psq }

/-- The head of each `betain` loop pass:
`term *= temp * rx / (pp + ai); value += term; temp = term.abs()`. -/
def betainUpdate (c : BetainCtx α) (s : BetainState α) : BetainState α :=
  let term := s.term * (s.temp * s.rx / (c.pp + s.ai))
  let value := s.value + term
  { s with term := term, value := value, temp := |term| }

/-- The convergence test of `betain`:
`temp <= accuracy && temp <= accuracy * value`. -/
def betainConverged (s : BetainState α) : Prop :=
  s.temp ≤ (betainAccuracy : α) ∧ s.temp ≤ (betainAccuracy : α) * s.value

instance (s : BetainState α) : Decidable (betainConverged s) :=
  inferInstanceAs (Decidable (_ ∧ _))

/-- The final rescaling of `betain` on convergence:
`value *= exp(pp * ln(xx) + (qq - 1) * ln(cx) - lnbeta) / pp`, then
`1 - value` if the tail was flipped. -/
def betainFinish (fexp flog : α → α) (c : BetainCtx α) (s : BetainState α) : α :=
  let v := s.value * fexp (c.pp * flog c.xx + (c.qq - 1) * flog c.cx - c.lnbeta) / c.pp
  if c.flip then 1 - v else v

/-- The tail of each non-converged `betain` loop pass:
`ai += 1; ns -= 1;` then the three-way `match ns` of the source
(positive: `temp = qq - ai`; zero: also `rx = xx`; negative: `temp = psq;
psq += 1`). -/
def betainBump (c : BetainCtx α) (s : BetainState α) : BetainState α :=
  let ai := s.ai + 1
  let ns := s.ns - 1
  if 1 ≤ ns then { s with ai := ai, ns := ns, temp := c.qq - ai }
  else if ns = 0 then { s with ai := ai, ns := ns, temp := c.qq - ai, rx := c.xx }
  else { s with ai := ai, ns := ns, temp := s.psq, psq := s.psq + 1 }

/-- The `loop { ... }` of `betain`, with explicit fuel (the source iterates
without bound; `none` means the fuel ran out). -/
def betainLoop (fexp flog : α → α) (c : BetainCtx α) : ℕ → BetainState α → Option α
  | 0, _ => none
  | n + 1, s =>
    let s1 := betainUpdate c s
    if betainConverged s1 then some (betainFinish fexp flog c s1)
    else betainLoop fexp flog c n (betainBump c s1)

/-- One complete pass of the `betain` loop on a state that did not converge. -/
def betainAdvance (c : BetainCtx α) (s : BetainState α) : BetainState α :=
  betainBump c (betainUpdate c s)

/-- The state at which the convergence test is evaluated in pass `k`
(0-indexed) when the loop starts from `s`. -/
def betainCheck (c : BetainCtx α) (s : BetainState α) (k : ℕ) : BetainState α :=
  betainUpdate c ((betainAdvance c)^[k] s)

/-- `betain` of `src/beta.rs`: parameter validation, boundary shortcut, and
the fuelled Soper-reduction loop. -/
def betain (fexp flog flgamma : α → α) (fuel : ℕ) (p q x : α) (lnbeta : Option α) :
    Except StatFuncError (Option α) :=
  match checkBetaParams p q with
  | .error e => .error e
  | .ok _ =>
    if ¬(0 ≤ x ∧ x ≤ 1) then .error .invalidProbability
    else if x = 0 ∨ x = 1 then .ok (some x)
    else
      let lb := lnbeta.getD (lbetaCore flgamma p q)
      let c := betainCtxOf p q x lb
      .ok (betainLoop fexp flog c fuel (betainInit p q c))

end Core

/-! ### The `_pnorm` rational approximation (`src/pnorm.rs`) -/

/-- `M_SQRT_32` of `src/pnorm.rs`. -/
def M_SQRT_32 : ℚ := 5.656854249492381

/-- `M_1_SQRT_2PI` of `src/pnorm.rs`. -/
def M_1_SQRT_2PI : ℚ := 0.3989422804014327

/-- Constant `A` of `_pnorm`. -/
def pnormA : ℚ := 0.065682337918207449113

/-- Coefficient table `AB` of `_pnorm` (region `|x| <= 0.67448975`). -/
def pnormAB : List (ℚ × ℚ) :=
  [(2.2352520354606839287, 47.20258190468824187),
   (161.02823106855587881, 976.09855173777669322),
   (1067.6894854603709582, 10260.932208618978205),
   (18154.981253343561249, 45507.789335026729956)]

/-- Constant `C` of `_pnorm`. -/
def pnormC : ℚ := 1.0765576773720192317e-8

/-- Coefficient table `CD` of `_pnorm` (region `0.67448975 < |x| <= sqrt 32`). -/
def pnormCD : List (ℚ × ℚ) :=
  [(0.39894151208813466764, 22.266688044328115691),
   (8.8831497943883759412, 235.38790178262499861),
   (93.506656132177855979, 1519.377599407554805),
   (597.27027639480026226, 6485.558298266760755),
   (2494.5375852903726711, 18615.571640885098091),
   (6848.1904505362823326, 34900.952721145977266),
   (11602.651437647350124, 38912.003286093271411),
   (9842.7148383839780218, 19685.429676859990727)]

/-- Constant `P` of `_pnorm`. -/
def pnormP : ℚ := 0.02307344176494017303

/-- Coefficient table `PQ` of `_pnorm` (asymptotic region `|x| > sqrt 32`). -/
def pnormPQ : List (ℚ × ℚ) :=
  [(0.21589853405795699, 1.28426009614491121),
   (0.1274011611602473639, 0.468238212480865118),
   (0.022235277870649807, 0.0659881378689285515),
   (0.001421619193227893466, 0.00378239633202758244),
   (2.9112874951168792e-5, 7.29751555083966205e-5)]

/-- `f64::EPSILON` (machine epsilon of a double, `2^-52`). -/
def f64Epsilon : ℚ := 1 / 2 ^ 52

/-- `EPS` of `_pnorm`: `f64::EPSILON * 0.5`. -/
def pnormEPS : ℚ := f64Epsilon * 0.5

/-- The region-A bound `0.67448975` of `_pnorm`. -/
def pnormRegionABound : ℚ := 0.67448975

/-- Lower bound of the region-C interval for `lower_tail = true`. -/
def pnormLowerMin : ℚ := -37.5193

/-- Upper bound of the region-C interval for `lower_tail = true`. -/
def pnormLowerMax : ℚ := 8.2924

/-- Lower bound of the region-C interval for `lower_tail = false`. -/
def pnormUpperMin : ℚ := -8.2924

/-- Upper bound of the region-C interval for `lower_tail = false`. -/
def pnormUpperMax : ℚ := 37.5193

section Core2

variable {α : Type} [LinearOrderedField α] [FloorRing α]

/-- The `do_del` closure of `_pnorm`: split `x` into the 4-fractional-bit
truncation `xsq = ldexp(ldexp(x, 4).trunc(), -4)` and the residual
`del = (x - xsq) * (x + xsq)`, and return `exp(-xsq*xsq/2 - del/2) * temp`. -/
def pnormDoDel (fexp : α → α) (x temp : α) : α :=
  let xsq := (truncToInt (x * 2 ^ 4) : α) / 2 ^ 4
  let del := (x - xsq) * (x + xsq)
  fexp (-xsq * xsq / 2 - del / 2) * temp

/-- The `swap_tail` closure of `_pnorm`: the `{x<0, x>=0} x {lower, upper}`
quadrant table. -/
def pnormSwapTail (lower : Bool) (x p : α) : α :=
  if x < 0 then (if lower then p else 1 - p)
  else (if lower then 1 - p else p)

/-- The `(xnum, xden)` pair of region A of `_pnorm`: the degree-4 Horner fold
over `AB[..3]` seeded with `(A * xsq, xsq)` when `|x| > EPS`, and `(0, 0)`
otherwise. -/
def pnormRegionAPair (x : α) : α × α :=
  let y := |x|
  if y > (pnormEPS : α) then
    let xsq := x ^ 2
    (pnormAB.take 3).foldl
      (fun acc ab => ((acc.1 + (ab.1 : α)) * xsq, (acc.2 + (ab.2 : α)) * xsq))
      ((pnormA : α) * xsq, xsq)
  else (0, 0)

/-- Region A of `_pnorm` (`|x| <= 0.67448975`):
`temp = x * (xnum + a) / (xden + b)` with `(a, b) = AB[3]`, and the result is
`0.5 + temp` (lower tail) or `0.5 - temp` (upper tail). -/
def pnormRegionA (x : α) (lower : Bool) : α :=
  let pr := pnormRegionAPair x
  let ab := pnormAB.getD 3 (0, 0)
  let temp := x * (pr.1 + (ab.1 : α)) / (pr.2 + (ab.2 : α))
  if lower then 0.5 + temp else 0.5 - temp

/-- The `temp` of region B of `_pnorm`: the 8-term rational polynomial in
`y`, folded over `CD[..7]` and finished with `CD[7]`. -/
def pnormRegionBTemp (y : α) : α :=
  let pr := (pnormCD.take 7).foldl
    (fun acc cd => ((acc.1 + (cd.1 : α)) * y, (acc.2 + (cd.2 : α)) * y))
    ((pnormC : α) * y, y)
  let cd := pnormCD.getD 7 (0, 0)
  (pr.1 + (cd.1 : α)) / (pr.2 + (cd.2 : α))

/-- The `temp` of region C of `_pnorm`: the 5-term asymptotic expansion in
`xsq = x^-2`, folded over `PQ[..4]` and finished with `PQ[4]`:
`(M_1_SQRT_2PI - xsq * (xnum + p) / (xden + q)) / y`. -/
def pnormRegionCTemp (x : α) : α :=
  let y := |x|
  let xsq := (x ^ 2)⁻¹
  let pr := (pnormPQ.take 4).foldl
    (fun acc pq => ((acc.1 + (pq.1 : α)) * xsq, (acc.2 + (pq.2 : α)) * xsq))
    ((pnormP : α) * xsq, xsq)
  let pq := pnormPQ.getD 4 (0, 0)
  ((M_1_SQRT_2PI : α) - xsq * (pr.1 + (pq.1 : α)) / (pr.2 + (pq.2 : α))) / y

/-- The guard of region C of `_pnorm`:
`(lower_tail && (-37.5193..8.2924).contains(&x))
 || (!lower_tail && (-8.2924..37.5193).contains(&x))`
(a Rust `a..b` range contains `x` iff `a <= x < b`). -/
def pnormRegionCCond (x : α) (lower : Bool) : Bool :=
  (lower && decide ((pnormLowerMin : α) ≤ x) && decide (x < (pnormLowerMax : α))) ||
  (!lower && decide ((pnormUpperMin : α) ≤ x) && decide (x < (pnormUpperMax : α)))

/-- `_pnorm` of `src/pnorm.rs`: the three-region rational approximation over
`y = |x|`, with underflow to `swap_tail(x, 0.0)` outside the region-C range. -/
def pnormCore (fexp : α → α) (x : α) (lower : Bool) : α :=
  let y := |x|
  if y ≤ (pnormRegionABound : α) then
    pnormRegionA x lower
  else if y ≤ (M_SQRT_32 : α) then
    pnormSwapTail lower x (pnormDoDel fexp y (pnormRegionBTemp y))
  else if pnormRegionCCond x lower then
    pnormSwapTail lower x (pnormDoDel fexp x (pnormRegionCTemp x))
  else
    pnormSwapTail lower x 0

end Core2

/-- `pnorm` of `src/pnorm.rs`: the fixed table on infinities, NaN returned
unchanged, and delegation to `_pnorm` on finite arguments (the final wildcard
is unreachable: a non-infinite non-NaN double is finite). -/
def pnormF (fexp : ℚ → ℚ) (z : F64) (lower : Bool) : F64 :=
  if z.isInfinite then
    match z.isSignNegative, lower with
    | true, true => F64.finite 0
    | true, false => F64.finite 1
    | false, true => F64.finite 1
    | false, false => F64.finite 0
  else if z.isNan then z
  else
    match z with
    | F64.finite x => F64.finite (pnormCore fexp x lower)
    | _ => z

/-! ### The Student's-t layer (`src/students_t.rs`) -/

/-- `unwrap` on a `Result`: the source panics on an error; every use below is
on a call site where the error branch is unreachable, and the model maps it to
an explicit default. -/
def unwrapD {β : Type} (r : Except StatFuncError β) (dflt : β) : β :=
  match r with
  | .ok a => a
  | .error _ => dflt

section Core3

variable {α : Type} [LinearOrderedField α] [FloorRing α]

/-- The `StudentsT` context: degrees of freedom `v`, the derived log-constant
`konst`, and the cached `lnbeta`. -/
structure StudentsT (α : Type) where
  v : α
  konst : α
  lnbeta : α
deriving DecidableEq

/-- `check_students_t_param` of `src/students_t.rs`. -/
def checkStudentsTParam (v : α) : Except StatFuncError Unit :=
  if v ≤ 0 then .error .invalidStudentsTParameter else .ok ()

/-- `StudentsT::new`: validate `v`, then
`lnbeta = lbeta(0.5 * v, 0.5).unwrap()` and `konst = -(0.5 * v.ln() + lnbeta)`. -/
def StudentsT.new (flog flgamma : α → α) (v : α) : Except StatFuncError (StudentsT α) :=
  match checkStudentsTParam v with
  | .error e => .error e
  | .ok _ =>
    let lnbeta := unwrapD (lbeta flgamma (0.5 * v) 0.5) 0
    let konst := -(0.5 * flog v + lnbeta)
    .ok { v := v, konst := konst, lnbeta := lnbeta }

/-- `_lstudents_t_pdf`: `konst + (1.0 + t * t / v).ln() * -0.5 * (v + 1.0)`. -/
def lstudentsTPdf (flog : α → α) (t v konst : α) : α :=
  konst + flog (1 + t * t / v) * -0.5 * (v + 1)

/-- `_students_t_pdf`: `exp` of `_lstudents_t_pdf`. -/
def studentsTPdf (fexp flog : α → α) (t v konst : α) : α :=
  fexp (lstudentsTPdf flog t v konst)

/-- `_students_t_cdf`: `x = v / (v + t * t)`;
`z = 0.5 * betain(0.5 * v, 0.5, x, lnbeta).unwrap()`; `z` if `t < 0` else
`1 - z`.  (The inner `Option` is the loop fuel; `none` stands for a source
run that has not yet converged and is defaulted.  In this finite idealisation
`x` always lies in `[0, 1]`, so the `.error` branch of the `.unwrap()` is
unreachable and its default is irrelevant; the panic that the source *can*
reach — at a NaN argument — is modelled explicitly by the IEEE-level
`studentsTCdfF` below.) -/
def studentsTCdf (fexp flog flgamma : α → α) (fuel : ℕ) (t v : α) (lnbeta : Option α) : α :=
  let x := v / (v + t * t)
  let r := unwrapD (betain fexp flog flgamma fuel (0.5 * v) 0.5 x lnbeta) none
  let z := 0.5 * (r.getD 0)
  if t < 0 then z else 1 - z

/-- Method `StudentsT::dt`. -/
def StudentsT.dt (s : StudentsT α) (fexp flog : α → α) (t : α) : α :=
  studentsTPdf fexp flog t s.v s.konst

/-- Method `StudentsT::ldt`. -/
def StudentsT.ldt (s : StudentsT α) (flog : α → α) (t : α) : α :=
  lstudentsTPdf flog t s.v s.konst

/-- Method `StudentsT::pt`. -/
def StudentsT.pt (s : StudentsT α) (fexp flog flgamma : α → α) (fuel : ℕ) (t : α) : α :=
  studentsTCdf fexp flog flgamma fuel t s.v (some s.lnbeta)

/-- Free function `ldt(t, v)`: validates `v`, then recomputes the constant as
`lgamma(0.5 * (v + 1.0)) - lgamma(0.5 * v) - 0.5 * (v * PI).ln()`
(`piv` stands for `std::f64::consts::PI`). -/
def ldtFree (flog flgamma : α → α) (piv t v : α) : Except StatFuncError α :=
  match checkStudentsTParam v with
  | .error e => .error e
  | .ok _ =>
    let konst := flgamma (0.5 * (v + 1)) - flgamma (0.5 * v) - 0.5 * flog (v * piv)
    .ok (lstudentsTPdf flog t v konst)

/-- Free function `dt(t, v)`: `ldt(t, v).map(|z| z.exp())`. -/
def dtFree (fexp flog flgamma : α → α) (piv t v : α) : Except StatFuncError α :=
  (ldtFree flog flgamma piv t v).map fexp

/-- Free function `pt(t, v)`: validates `v`, then
`_students_t_cdf(t, v, None)`. -/
def ptFree (fexp flog flgamma : α → α) (fuel : ℕ) (t v : α) : Except StatFuncError α :=
  match checkStudentsTParam v with
  | .error e => .error e
  | .ok _ => .ok (studentsTCdf fexp flog flgamma fuel t v none)

end Core3

/-! ### IEEE-level entry points (`F64`) for the special-value claims -/

/-- `check_beta_params` with IEEE comparisons:
`alpha <= 0.0 || beta <= 0.0` (false on NaN arguments). -/
def checkBetaParamsF (p q : F64) : Except StatFuncError Unit :=
  if p.le (F64.finite 0) || q.le (F64.finite 0) then .error .invalidBetaParameters
  else .ok ()

/-- `lbeta` over doubles: validation, then
`lgamma(p) + lgamma(q) - lgamma(p + q)` in IEEE arithmetic. -/
def lbetaF (flgamma : ℚ → ℚ) (p q : F64) : Except StatFuncError F64 :=
  match checkBetaParamsF p q with
  | .error e => .error e
  | .ok _ =>
    .ok (((F64.lgammaF flgamma p).add (F64.lgammaF flgamma q)).sub
          (F64.lgammaF flgamma (p.add q)))

/-- `beta` over doubles: `lbeta(p, q).map(|x| x.exp())`. -/
def betaF (fexp flgamma : ℚ → ℚ) (p q : F64) : Except StatFuncError F64 :=
  (lbetaF flgamma p q).map (F64.expF fexp)

/-- `check_students_t_param` with IEEE comparison: `v <= 0.0` is false for a
NaN argument, which therefore passes the check. -/
def checkStudentsTParamF (v : F64) : Except StatFuncError Unit :=
  if v.le (F64.finite 0) then .error .invalidStudentsTParameter else .ok ()

/-- The `StudentsT` context over doubles. -/
structure StudentsTF where
  v : F64
  konst : F64
  lnbeta : F64
deriving DecidableEq, Repr

/-- `StudentsT::new` over doubles: validation with the IEEE comparison, then
`lnbeta = lbeta(0.5 * v, 0.5).unwrap()`, `konst = -(0.5 * v.ln() + lnbeta)`. -/
def StudentsTF.new (flog flgamma : ℚ → ℚ) (v : F64) : Except StatFuncError StudentsTF :=
  match checkStudentsTParamF v with
  | .error e => .error e
  | .ok _ =>
    let half : F64 := F64.finite 0.5
    let lnbeta := unwrapD (lbetaF flgamma (half.mul v) half) (F64.finite 0)
    let konst := ((half.mul (F64.logF flog v)).add lnbeta).neg
    .ok { v := v, konst := konst, lnbeta := lnbeta }

/-- `betain` at the IEEE level: the source's argument validation
(`check_beta_params`, then `!(0.0..=1.0).contains(&x)`) and boundary shortcut
(`x == 0.0 || x == 1.0`) with IEEE comparisons, then the exact loop on the
rational payloads.  Any `x` that passes the range test is finite with
`0 <= x <= 1`, so structural equality coincides with IEEE `==` at the
boundary test.  A non-finite `p` or `q` that passes validation (NaN or `+∞`),
or a cached non-finite `lnbeta`, would drive the source's loop with
non-finite arithmetic; that corner is outside the finite idealisation (no
claim evaluates the loop there) and yields no value here. -/
def betainF (fexp flog flgamma : ℚ → ℚ) (fuel : ℕ) (p q x : F64) (lnbeta : Option F64) :
    Except StatFuncError (Option F64) :=
  match checkBetaParamsF p q with
  | .error e => .error e
  | .ok _ =>
    if !((F64.finite 0).le x && x.le (F64.finite 1)) then .error .invalidProbability
    else if x = F64.finite 0 ∨ x = F64.finite 1 then .ok (some x)
    else
      match p, q, x with
      | F64.finite pq, F64.finite qv, F64.finite xq =>
        let lb : ℚ :=
          match lnbeta with
          | some (F64.finite l) => l
          | _ => lbetaCore flgamma pq qv
        let c := betainCtxOf pq qv xq lb
        .ok ((betainLoop fexp flog c fuel (betainInit pq qv c)).map F64.finite)
      | _, _, _ => .ok none

/-- `_lstudents_t_pdf` at the IEEE level:
`konst + (1.0 + t * t / v).ln() * -0.5 * (v + 1.0)` (NaN propagates). -/
def lstudentsTPdfF (flog : ℚ → ℚ) (t v konst : F64) : F64 :=
  konst.add (((F64.logF flog ((F64.finite 1).add ((t.mul t).div v))).mul
    (F64.finite (-0.5))).mul (v.add (F64.finite 1)))

/-- `_students_t_pdf` at the IEEE level: `exp` of `_lstudents_t_pdf`. -/
def studentsTPdfF (fexp flog : ℚ → ℚ) (t v konst : F64) : F64 :=
  F64.expF fexp (lstudentsTPdfF flog t v konst)

/-- `_students_t_cdf` at the IEEE level: `x = v / (v + t * t)`;
`z = 0.5 * betain(0.5 * v, 0.5, x, lnbeta).unwrap()`; `z` if `t < 0.0` else
`1.0 - z`.  The source's `.unwrap()` turns a `betain` validation error into a
panic; that panic is modelled explicitly as the `.error` outcome (the inner
`none` is exhausted fuel, a source run that has not yet returned). -/
def studentsTCdfF (fexp flog flgamma : ℚ → ℚ) (fuel : ℕ) (t v : F64) (lnbeta : Option F64) :
    Except StatFuncError (Option F64) :=
  let x := v.div (v.add (t.mul t))
  match betainF fexp flog flgamma fuel ((F64.finite 0.5).mul v) (F64.finite 0.5) x lnbeta with
  | .error e => .error e
  | .ok none => .ok none
  | .ok (some w) =>
    let z := (F64.finite 0.5).mul w
    .ok (some (if t.lt (F64.finite 0) then z else (F64.finite 1).sub z))

/-- Method `StudentsT::dt` at the IEEE level. -/
def StudentsTF.dt (s : StudentsTF) (fexp flog : ℚ → ℚ) (t : F64) : F64 :=
  studentsTPdfF fexp flog t s.v s.konst

/-- Method `StudentsT::ldt` at the IEEE level. -/
def StudentsTF.ldt (s : StudentsTF) (flog : ℚ → ℚ) (t : F64) : F64 :=
  lstudentsTPdfF flog t s.v s.konst

/-- Method `StudentsT::pt` at the IEEE level (the `.error` outcome is the
modelled panic of the inner `.unwrap()`). -/
def StudentsTF.pt (s : StudentsTF) (fexp flog flgamma : ℚ → ℚ) (fuel : ℕ) (t : F64) :
    Except StatFuncError (Option F64) :=
  studentsTCdfF fexp flog flgamma fuel t s.v (some s.lnbeta)

/-! ## Theorems for the claims -/

/-- **C4**: `pnorm` is total on doubles and never fails: the two infinities
are answered from the fixed table `pnorm(-∞, true) = 0`, `pnorm(-∞, false) = 1`,
`pnorm(+∞, true) = 1`, `pnorm(+∞, false) = 0` (keyed on the sign and the tail,
with no computation), and a NaN argument is returned unchanged for either
value of `lower_tail`. -/
theorem pnorm_special_values (fexp : ℚ → ℚ) :
    pnormF fexp F64.negInf true = F64.finite 0 ∧
    pnormF fexp F64.negInf false = F64.finite 1 ∧
    pnormF fexp F64.posInf true = F64.finite 1 ∧
    pnormF fexp F64.posInf false = F64.finite 0 ∧
    (∀ lower : Bool, pnormF fexp F64.nan lower = F64.nan) :=
  ⟨rfl, rfl, rfl, rfl, fun lower => by cases lower <;> rfl⟩

/-- **C10**: `StudentsT::new(NaN)` returns `Ok` with all three fields NaN
rather than the invalid-parameter error: the validation tests only `v <= 0.0`,
and under IEEE comparison NaN satisfies neither `v <= 0` nor `v > 0`. -/
theorem studentsT_new_nan (flog flgamma : ℚ → ℚ) :
    F64.nan.le (F64.finite 0) = false ∧
    (F64.finite 0).lt F64.nan = false ∧
    checkStudentsTParamF F64.nan = .ok () ∧
    StudentsTF.new flog flgamma F64.nan =
      .ok { v := F64.nan, konst := F64.nan, lnbeta := F64.nan } :=
  ⟨rfl, rfl, rfl, by
    have h05 : ¬(0.5 : ℚ) ≤ 0 := by norm_num
    simp [StudentsTF.new, checkStudentsTParamF, lbetaF, checkBetaParamsF, unwrapD,
      F64.le, F64.mul, F64.lgammaF, F64.add, F64.sub, F64.neg, F64.logF, h05]⟩

/-- **C6** (counterexample): with a NaN argument, `lbeta` does *not* signal
the invalid-beta-parameters error, although `p > 0 && q > 0` fails there: the
implemented test `p <= 0.0 || q <= 0.0` is false on NaN under IEEE comparison,
so `lbeta(NaN, 1)` returns `Ok(NaN)`. -/
theorem lbeta_nan_counterexample :
    (F64.finite 0).lt F64.nan = false ∧
    lbetaF (fun _ => 0) F64.nan (F64.finite 1) = .ok F64.nan :=
  ⟨rfl, rfl⟩

/-- **C6** (amended): `lbeta(p, q)` signals the invalid-beta-parameters error
exactly when `p <= 0.0 || q <= 0.0` holds under IEEE comparison — so a NaN
argument passes validation instead of being rejected — and otherwise (in
particular whenever `p > 0` and `q > 0` both hold) returns
`Ok(lgamma(p) + lgamma(q) - lgamma(p+q))`; `beta(p, q)` is `exp` of that
result and propagates the same validation. -/
theorem lbeta_validation (flgamma fexp : ℚ → ℚ) (p q : F64) :
    (lbetaF flgamma p q =
      if p.le (F64.finite 0) || q.le (F64.finite 0) then
        .error .invalidBetaParameters
      else
        .ok (((F64.lgammaF flgamma p).add (F64.lgammaF flgamma q)).sub
              (F64.lgammaF flgamma (p.add q)))) ∧
    ((F64.finite 0).lt p = true → (F64.finite 0).lt q = true →
      lbetaF flgamma p q =
        .ok (((F64.lgammaF flgamma p).add (F64.lgammaF flgamma q)).sub
              (F64.lgammaF flgamma (p.add q)))) ∧
    betaF fexp flgamma p q = (lbetaF flgamma p q).map (F64.expF fexp) := by
  have hle : ∀ z : F64, (F64.finite 0).lt z = true → z.le (F64.finite 0) = false := by
    intro z hz
    cases z with
    | finite a =>
      simp only [F64.lt, decide_eq_true_eq] at hz
      simp only [F64.le, decide_eq_false_iff_not, not_le]
      exact hz
    | posInf => rfl
    | negInf => exact absurd hz (by simp [F64.lt])
    | nan => exact absurd hz (by simp [F64.lt])
  refine ⟨?_, ?_, rfl⟩
  · cases hpq : (p.le (F64.finite 0) || q.le (F64.finite 0)) <;>
      simp [lbetaF, checkBetaParamsF, hpq]
  · intro hp hq
    simp [lbetaF, checkBetaParamsF, hle p hp, hle q hq]

/-- Witness for C6's amended theorem at `p = 2`, `q = 3` (both positive, so
validation passes and the log-gamma composition is returned). -/
theorem lbeta_validation_witness :
    (F64.finite 0).lt (F64.finite 2) = true ∧
    lbetaF (fun _ => 0) (F64.finite 2) (F64.finite 3) = .ok (F64.finite 0) := by
  have h2 : (F64.finite 0).lt (F64.finite 2) = true := by norm_num [F64.lt]
  have h3 : (F64.finite 0).lt (F64.finite 3) = true := by norm_num [F64.lt]
  have h := (lbeta_validation (fun _ => 0) (fun _ => 0) (F64.finite 2) (F64.finite 3)).2.1 h2 h3
  refine ⟨h2, h.trans ?_⟩
  simp [F64.lgammaF, F64.add, F64.sub, F64.neg]

section RegionTheorems

variable {α : Type} [LinearOrderedField α] [FloorRing α]

/-- Helper: above the short-circuit threshold, the region-A pair is the full
degree-4/degree-4 Horner evaluation in `x^2`. -/
theorem pnormRegionAPair_of_gt (x : α) (h : (pnormEPS : α) < |x|) :
    pnormRegionAPair x =
      (((((pnormA : α) * x ^ 2 + ((2.2352520354606839287 : ℚ) : α)) * x ^ 2 +
          ((161.02823106855587881 : ℚ) : α)) * x ^ 2 +
          ((1067.6894854603709582 : ℚ) : α)) * x ^ 2,
       (((x ^ 2 + ((47.20258190468824187 : ℚ) : α)) * x ^ 2 +
          ((976.09855173777669322 : ℚ) : α)) * x ^ 2 +
          ((10260.932208618978205 : ℚ) : α)) * x ^ 2) := by
  simp [pnormRegionAPair, h, pnormAB]

/-- Helper: at or below the short-circuit threshold, the region-A pair is
`(0, 0)`. -/
theorem pnormRegionAPair_of_le (x : α) (h : |x| ≤ (pnormEPS : α)) :
    pnormRegionAPair x = (0, 0) := by
  simp [pnormRegionAPair, not_lt.mpr h]

/-- **C5** (amended): in region A (`|x| <= 0.67448975`), the rational
polynomial evaluation short-circuits to the pair `(0, 0)` exactly when
`|x| <= EPS` where `EPS = f64::EPSILON * 0.5` is *half* machine epsilon (not
machine epsilon itself), and is the full degree-4/degree-4 Horner evaluation
in `x^2` when `|x| > EPS`; the result is `0.5 + x * (num/den)` for
`lower_tail = true` and `0.5 - x * (num/den)` for `lower_tail = false`, where
`(num, den)` is the pair completed by the last coefficient pair `AB[3]`. -/
theorem pnorm_regionA_eval (fexp : α → α) (x : α)
    (h : |x| ≤ (pnormRegionABound : α)) :
    (pnormCore fexp x true =
      0.5 + x * ((pnormRegionAPair x).1 + ((18154.981253343561249 : ℚ) : α)) /
        ((pnormRegionAPair x).2 + ((45507.789335026729956 : ℚ) : α))) ∧
    (pnormCore fexp x false =
      0.5 - x * ((pnormRegionAPair x).1 + ((18154.981253343561249 : ℚ) : α)) /
        ((pnormRegionAPair x).2 + ((45507.789335026729956 : ℚ) : α))) ∧
    (|x| ≤ (pnormEPS : α) → pnormRegionAPair x = (0, 0)) ∧
    ((pnormEPS : α) < |x| →
      pnormRegionAPair x =
        (((((pnormA : α) * x ^ 2 + ((2.2352520354606839287 : ℚ) : α)) * x ^ 2 +
            ((161.02823106855587881 : ℚ) : α)) * x ^ 2 +
            ((1067.6894854603709582 : ℚ) : α)) * x ^ 2,
         (((x ^ 2 + ((47.20258190468824187 : ℚ) : α)) * x ^ 2 +
            ((976.09855173777669322 : ℚ) : α)) * x ^ 2 +
            ((10260.932208618978205 : ℚ) : α)) * x ^ 2)) := by
  refine ⟨?_, ?_, pnormRegionAPair_of_le x, pnormRegionAPair_of_gt x⟩ <;>
    simp [pnormCore, h, pnormRegionA, pnormAB]

end RegionTheorems

/-- Witness for the amended C5 at `x = 1/2` (inside region A, above the
threshold, lower tail). -/
theorem pnorm_regionA_eval_witness :
    |(1 / 2 : ℚ)| ≤ (pnormRegionABound : ℚ) ∧
    pnormCore (fun _ => 0) (1 / 2 : ℚ) true =
      0.5 + (1 / 2 : ℚ) * ((pnormRegionAPair (1 / 2 : ℚ)).1 + ((18154.981253343561249 : ℚ) : ℚ)) /
        ((pnormRegionAPair (1 / 2 : ℚ)).2 + ((45507.789335026729956 : ℚ) : ℚ)) := by
  have h : |(1 / 2 : ℚ)| ≤ (pnormRegionABound : ℚ) := by
    rw [abs_of_nonneg (by norm_num : (0 : ℚ) ≤ 1 / 2)]
    norm_num [pnormRegionABound]
  exact ⟨h, (pnorm_regionA_eval (fun _ => 0) (1 / 2 : ℚ) h).1⟩

/-- **C5** (counterexample): at `z = 3 * 2^-54`, which is strictly below
machine epsilon `f64::EPSILON = 2^-52` but strictly above the implemented
threshold `EPS = f64::EPSILON * 0.5`, the polynomial evaluation does *not*
short-circuit to `(0, 0)` — the denominator component of the full Horner
evaluation is strictly positive. -/
theorem pnorm_regionA_eps_counterexample :
    (3 / 2 ^ 54 : ℚ) < f64Epsilon ∧ (pnormEPS : ℚ) < |(3 / 2 ^ 54 : ℚ)| ∧
    pnormRegionAPair (3 / 2 ^ 54 : ℚ) ≠ (0, 0) := by
  have h : (pnormEPS : ℚ) < |(3 / 2 ^ 54 : ℚ)| := by
    rw [abs_of_nonneg (by norm_num : (0 : ℚ) ≤ 3 / 2 ^ 54)]
    norm_num [pnormEPS, f64Epsilon]
  refine ⟨by norm_num [f64Epsilon], h, ?_⟩
  rw [pnormRegionAPair_of_gt _ h]
  intro hc
  simp only [Rat.cast_id, Prod.mk.injEq] at hc
  have hpos : (0 : ℚ) <
      ((((3 / 2 ^ 54 : ℚ) ^ 2 + (47.20258190468824187 : ℚ)) * (3 / 2 ^ 54 : ℚ) ^ 2 +
        (976.09855173777669322 : ℚ)) * (3 / 2 ^ 54 : ℚ) ^ 2 +
        (10260.932208618978205 : ℚ)) * (3 / 2 ^ 54 : ℚ) ^ 2 := by
    positivity
  exact (ne_of_gt hpos) hc.2

section RegionCTheorems

variable {α : Type} [LinearOrderedField α] [FloorRing α]

/-- **C3** (amended): for finite `x` with `|x| > M_SQRT_32`, `_pnorm` applies
the 5-term asymptotic expansion together with the cancellation-avoidance
split exactly when the region-C guard holds, which for `lower_tail = true` is
`x ∈ [-37.5193, 8.2924)` and for `lower_tail = false` is
`x ∈ [-8.2924, 37.5193)` (both half-open on the right, per the Rust `a..b`
ranges); outside the guard the result is `swap_tail(x, 0.0)`, which is
exactly `0` or `1` according to the sign/tail quadrant. -/
theorem pnorm_regionC_eval (fexp : α → α) (x : α) (lower : Bool)
    (h : (M_SQRT_32 : α) < |x|) :
    (pnormCore fexp x lower =
      if pnormRegionCCond x lower then
        pnormSwapTail lower x (pnormDoDel fexp x (pnormRegionCTemp x))
      else pnormSwapTail lower x 0) ∧
    (pnormRegionCCond x true = true ↔
      ((pnormLowerMin : ℚ) : α) ≤ x ∧ x < ((pnormLowerMax : ℚ) : α)) ∧
    (pnormRegionCCond x false = true ↔
      ((pnormUpperMin : ℚ) : α) ≤ x ∧ x < ((pnormUpperMax : ℚ) : α)) ∧
    (pnormSwapTail lower x (0 : α) = 0 ∨ pnormSwapTail lower x (0 : α) = 1) := by
  have hAB : ((pnormRegionABound : ℚ) : α) < ((M_SQRT_32 : ℚ) : α) := by
    rw [Rat.cast_lt]
    norm_num [pnormRegionABound, M_SQRT_32]
  refine ⟨?_, ?_, ?_, ?_⟩
  · rw [pnormCore]
    rw [if_neg (not_le.mpr (lt_trans hAB h)), if_neg (not_le.mpr h)]
  · simp [pnormRegionCCond]
  · simp [pnormRegionCCond]
  · unfold pnormSwapTail
    split_ifs <;> simp

end RegionCTheorems

/-- Witness for the amended C3 at `x = 6`, `lower_tail = true` (inside the
lower-tail region-C interval). -/
theorem pnorm_regionC_eval_witness :
    (M_SQRT_32 : ℚ) < |(6 : ℚ)| ∧
    (pnormCore (fun _ => 1) (6 : ℚ) true =
      if pnormRegionCCond (6 : ℚ) true then
        pnormSwapTail true (6 : ℚ) (pnormDoDel (fun _ => 1) (6 : ℚ) (pnormRegionCTemp (6 : ℚ)))
      else pnormSwapTail true (6 : ℚ) 0) := by
  have h : (M_SQRT_32 : ℚ) < |(6 : ℚ)| := by
    rw [abs_of_nonneg (by norm_num : (0 : ℚ) ≤ 6)]
    norm_num [M_SQRT_32]
  exact ⟨h, (pnorm_regionC_eval (fun _ => 1) (6 : ℚ) true h).1⟩

/-- **C3** (counterexample): at `z = -8.2924` with `lower_tail = false`, we
have `|z| > M_SQRT_32` and `z` lies outside the claimed upper-tail interval
`(-8.2924, 37.5193]` (it is not strictly greater than `-8.2924`), so the
claim predicts the underflow result `swap_tail(z, 0.0) = 1`; but the code's
half-open guard `-8.2924 <= x < 37.5193` admits `z` and evaluates the
asymptotic expansion, producing a value different from `1`. -/
theorem pnorm_regionC_boundary_counterexample :
    (M_SQRT_32 : ℚ) < |(-8.2924 : ℚ)| ∧
    ¬((pnormUpperMin : ℚ) < (-8.2924 : ℚ) ∧ (-8.2924 : ℚ) ≤ (pnormUpperMax : ℚ)) ∧
    pnormRegionCCond (-8.2924 : ℚ) false = true ∧
    pnormSwapTail false (-8.2924 : ℚ) (0 : ℚ) = 1 ∧
    pnormCore (fun _ => 1) (-8.2924 : ℚ) false ≠ 1 := by
  have habs : |(-8.2924 : ℚ)| = 8.2924 := by
    rw [abs_of_nonpos (by norm_num : (-8.2924 : ℚ) ≤ 0)]
    norm_num
  have h1 : ¬(|(-8.2924 : ℚ)| ≤ ((pnormRegionABound : ℚ) : ℚ)) := by
    rw [habs]
    norm_num [pnormRegionABound]
  have h2 : ¬(|(-8.2924 : ℚ)| ≤ ((M_SQRT_32 : ℚ) : ℚ)) := by
    rw [habs]
    norm_num [M_SQRT_32]
  have hcond : pnormRegionCCond (-8.2924 : ℚ) false = true := by
    norm_num [pnormRegionCCond, pnormUpperMin, pnormUpperMax]
  have hneg : (-8.2924 : ℚ) < 0 := by norm_num
  have htemp : pnormRegionCTemp (-8.2924 : ℚ) ≠ 0 := by
    norm_num [pnormRegionCTemp, pnormPQ, pnormP, M_1_SQRT_2PI, habs]
  have hdel : pnormDoDel (fun _ => 1) (-8.2924 : ℚ) (pnormRegionCTemp (-8.2924 : ℚ)) ≠ 0 := by
    simp only [pnormDoDel]
    simpa using htemp
  have hcore : pnormCore (fun _ => 1) (-8.2924 : ℚ) false =
      pnormSwapTail false (-8.2924 : ℚ)
        (pnormDoDel (fun _ => 1) (-8.2924 : ℚ) (pnormRegionCTemp (-8.2924 : ℚ))) := by
    simp only [pnormCore, Rat.cast_id]
    rw [if_neg h1, if_neg h2, if_pos hcond]
  refine ⟨by rw [habs]; norm_num [M_SQRT_32], by norm_num [pnormUpperMin], hcond,
    by simp [pnormSwapTail, hneg], ?_⟩
  rw [hcore]
  simp only [pnormSwapTail, if_pos hneg, Bool.false_eq_true, if_false, ne_eq, sub_eq_self]
  exact hdel

section BetainTheorems

variable {α : Type} [LinearOrderedField α] [FloorRing α]

/-- **C2**: tail selection of `betain` for valid parameters: with
`psq = p + q`, if `p < psq * x` the working parameters are
`xx = 1-x, cx = x, pp = q, qq = p` with the flip flag set and the converged
value is returned as `1 - value`; otherwise they are
`xx = x, cx = 1-x, pp = p, qq = q` without flip and the value is returned
directly. -/
theorem betain_tail_selection (p q x lb : α)
    (hp : 0 < p) (hq : 0 < q) (hx0 : 0 < x) (hx1 : x < 1) :
    (p < (p + q) * x →
      betainCtxOf p q x lb = ⟨1 - x, x, q, p, true, lb⟩) ∧
    (¬p < (p + q) * x →
      betainCtxOf p q x lb = ⟨x, 1 - x, p, q, false, lb⟩) ∧
    (∀ (fexp flog : α → α) (s : BetainState α),
      betainFinish fexp flog (betainCtxOf p q x lb) s =
        if p < (p + q) * x then
          1 - s.value * fexp (q * flog (1 - x) + (p - 1) * flog x - lb) / q
        else
          s.value * fexp (p * flog x + (q - 1) * flog (1 - x) - lb) / p) := by
  refine ⟨fun h => by simp [betainCtxOf, h], fun h => by simp [betainCtxOf, h], ?_⟩
  intro fexp flog s
  by_cases h : p < (p + q) * x <;> simp [betainCtxOf, betainFinish, h]

/-- Witness for C2 at `p = q = 1`, `x = 1/2` (the unflipped branch:
`1 < 2 * (1/2)` is false). -/
theorem betain_tail_selection_witness :
    ¬((1 : ℚ) < (1 + 1) * (1 / 2)) ∧
    betainCtxOf (1 : ℚ) 1 (1 / 2) 0 = ⟨1 / 2, 1 - 1 / 2, 1, 1, false, 0⟩ := by
  have hn : ¬((1 : ℚ) < (1 + 1) * (1 / 2)) := by norm_num
  exact ⟨hn, (betain_tail_selection (1 : ℚ) 1 (1 / 2) 0 (by norm_num) (by norm_num)
    (by norm_num) (by norm_num)).2.1 hn⟩

/-- One unfolding of the fuelled `betain` loop. -/
theorem betainLoop_succ (fexp flog : α → α) (c : BetainCtx α) (n : ℕ) (s : BetainState α) :
    betainLoop fexp flog c (n + 1) s =
      if betainConverged (betainUpdate c s) then
        some (betainFinish fexp flog c (betainUpdate c s))
      else betainLoop fexp flog c n (betainBump c (betainUpdate c s)) := rfl

/-- Shifting the convergence-check index by one full pass. -/
theorem betainCheck_succ (c : BetainCtx α) (s : BetainState α) (k : ℕ) :
    betainCheck c s (k + 1) = betainCheck c (betainAdvance c s) k := by
  simp [betainCheck, Function.iterate_succ_apply]

/-- The convergence check of pass 0 is the updated initial state. -/
theorem betainCheck_zero (c : BetainCtx α) (s : BetainState α) :
    betainCheck c s 0 = betainUpdate c s := by
  simp [betainCheck]

/-- The fuelled `betain` loop returns `some r` precisely when the convergence
test first succeeds at some pass `k` within the fuel, and then `r` is the
rescaled value of that pass. -/
theorem betainLoop_eq_some_iff (fexp flog : α → α) (c : BetainCtx α) :
    ∀ (n : ℕ) (s : BetainState α) (r : α),
      betainLoop fexp flog c n s = some r ↔
        ∃ k < n, (∀ j < k, ¬betainConverged (betainCheck c s j)) ∧
          betainConverged (betainCheck c s k) ∧
          r = betainFinish fexp flog c (betainCheck c s k) := by
  intro n
  induction n with
  | zero => intro s r; simp [betainLoop]
  | succ n ih =>
    intro s r
    rw [betainLoop_succ]
    by_cases hc : betainConverged (betainUpdate c s)
    · rw [if_pos hc]
      constructor
      · intro h
        refine ⟨0, Nat.succ_pos n, fun j hj => absurd hj (Nat.not_lt_zero j), ?_, ?_⟩
        · rw [betainCheck_zero]; exact hc
        · rw [betainCheck_zero]; exact (Option.some.inj h).symm
      · rintro ⟨k, hk, hmin, hconv, hr⟩
        have hk0 : k = 0 := by
          by_contra h0
          exact hmin 0 (Nat.pos_of_ne_zero h0) (by rw [betainCheck_zero]; exact hc)
        subst hk0
        rw [betainCheck_zero] at hr
        rw [hr]
    · rw [if_neg hc]
      have hadv : betainBump c (betainUpdate c s) = betainAdvance c s := rfl
      rw [hadv, ih (betainAdvance c s) r]
      constructor
      · rintro ⟨k, hk, hmin, hconv, hr⟩
        refine ⟨k + 1, Nat.succ_lt_succ hk, ?_, ?_, ?_⟩
        · intro j hj
          cases j with
          | zero => rw [betainCheck_zero]; exact hc
          | succ j =>
            rw [betainCheck_succ]
            exact hmin j (Nat.lt_of_succ_lt_succ hj)
        · rw [betainCheck_succ]; exact hconv
        · rw [betainCheck_succ]; exact hr
      · rintro ⟨k, hk, hmin, hconv, hr⟩
        cases k with
        | zero =>
          rw [betainCheck_zero] at hconv
          exact absurd hconv hc
        | succ k =>
          refine ⟨k, Nat.lt_of_succ_lt_succ hk, ?_, ?_, ?_⟩
          · intro j hj
            have hj1 := hmin (j + 1) (Nat.succ_lt_succ hj)
            rwa [betainCheck_succ] at hj1
          · rwa [betainCheck_succ] at hconv
          · rwa [betainCheck_succ] at hr

/-- **C1**: for valid parameters, the `betain` iteration stops exactly at the
first pass where `|term| <= 1e-14` and `|term| <= 1e-14 * value` both hold
(for any fuel, the loop returns a value precisely when such a pass exists
within the fuel), and on that pass the accumulated value is rescaled by
multiplying with `exp(pp*ln(xx) + (qq-1)*ln(cx) - lnbeta) / pp`, the result
being replaced by `1 - value` exactly when the tail was flipped. -/
theorem betain_loop_convergence (fexp flog : α → α) (p q x lb : α)
    (hp : 0 < p) (hq : 0 < q) (hx0 : 0 < x) (hx1 : x < 1) (n : ℕ) (r : α) :
    (betainLoop fexp flog (betainCtxOf p q x lb) n
        (betainInit p q (betainCtxOf p q x lb)) = some r ↔
      ∃ k < n,
        (∀ j < k, ¬betainConverged
          (betainCheck (betainCtxOf p q x lb) (betainInit p q (betainCtxOf p q x lb)) j)) ∧
        betainConverged
          (betainCheck (betainCtxOf p q x lb) (betainInit p q (betainCtxOf p q x lb)) k) ∧
        r = betainFinish fexp flog (betainCtxOf p q x lb)
          (betainCheck (betainCtxOf p q x lb) (betainInit p q (betainCtxOf p q x lb)) k)) ∧
    (∀ s : BetainState α, betainConverged s ↔
      s.temp ≤ ((betainAccuracy : ℚ) : α) ∧ s.temp ≤ ((betainAccuracy : ℚ) : α) * s.value) ∧
    (∀ m, (betainCheck (betainCtxOf p q x lb) (betainInit p q (betainCtxOf p q x lb)) m).temp =
      |(betainCheck (betainCtxOf p q x lb) (betainInit p q (betainCtxOf p q x lb)) m).term|) ∧
    (∀ s : BetainState α,
      betainFinish fexp flog (betainCtxOf p q x lb) s =
        if (betainCtxOf p q x lb).flip then
          1 - s.value * fexp ((betainCtxOf p q x lb).pp * flog (betainCtxOf p q x lb).xx +
            ((betainCtxOf p q x lb).qq - 1) * flog (betainCtxOf p q x lb).cx -
            (betainCtxOf p q x lb).lnbeta) / (betainCtxOf p q x lb).pp
        else
          s.value * fexp ((betainCtxOf p q x lb).pp * flog (betainCtxOf p q x lb).xx +
            ((betainCtxOf p q x lb).qq - 1) * flog (betainCtxOf p q x lb).cx -
            (betainCtxOf p q x lb).lnbeta) / (betainCtxOf p q x lb).pp) := by
  refine ⟨betainLoop_eq_some_iff fexp flog _ n _ r, fun s => Iff.rfl, fun m => rfl, fun s => ?_⟩
  unfold betainFinish
  by_cases h : (betainCtxOf p q x lb).flip <;> simp [h]

end BetainTheorems

/-- Witness for C1 at `p = q = 1`, `x = 1/2`, cached `lnbeta = 0`, dummy
`exp ≡ 1`, `ln ≡ 0`, fuel 1: the first-pass term is `0`, so the test
succeeds immediately. -/
theorem betain_loop_convergence_witness :
    betainLoop (fun _ => (1 : ℚ)) (fun _ => 0) (betainCtxOf (1 : ℚ) 1 (1 / 2) 0) 1
        (betainInit (1 : ℚ) 1 (betainCtxOf (1 : ℚ) 1 (1 / 2) 0)) = some 1 ↔
      ∃ k < 1,
        (∀ j < k, ¬betainConverged
          (betainCheck (betainCtxOf (1 : ℚ) 1 (1 / 2) 0)
            (betainInit (1 : ℚ) 1 (betainCtxOf (1 : ℚ) 1 (1 / 2) 0)) j)) ∧
        betainConverged
          (betainCheck (betainCtxOf (1 : ℚ) 1 (1 / 2) 0)
            (betainInit (1 : ℚ) 1 (betainCtxOf (1 : ℚ) 1 (1 / 2) 0)) k) ∧
        (1 : ℚ) = betainFinish (fun _ => (1 : ℚ)) (fun _ => 0) (betainCtxOf (1 : ℚ) 1 (1 / 2) 0)
          (betainCheck (betainCtxOf (1 : ℚ) 1 (1 / 2) 0)
            (betainInit (1 : ℚ) 1 (betainCtxOf (1 : ℚ) 1 (1 / 2) 0)) k) :=
  (betain_loop_convergence (fun _ => (1 : ℚ)) (fun _ => 0) 1 1 (1 / 2) 0
    (by norm_num) (by norm_num) (by norm_num) (by norm_num) 1 1).1

section StudentsTTheorems

variable {α : Type} [LinearOrderedField α] [FloorRing α]

/-- **C8**: for `v > 0` the constructor succeeds and the invariant
`konst == -(0.5 * ln(v) + lnbeta)` with `lnbeta == lbeta(v/2, 1/2)` holds as
an exact equality of the stored fields; since no operation mutates the
context, it holds for the whole life of the object. -/
theorem studentsT_konst_invariant (flog flgamma : α → α) (v : α) (hv : 0 < v) :
    StudentsT.new flog flgamma v =
      .ok { v := v,
            konst := -(0.5 * flog v + lbetaCore flgamma (0.5 * v) 0.5),
            lnbeta := lbetaCore flgamma (0.5 * v) 0.5 } ∧
    (∀ s : StudentsT α, StudentsT.new flog flgamma v = .ok s →
      s.konst = -(0.5 * flog v + s.lnbeta) ∧
      s.lnbeta = lbetaCore flgamma (0.5 * v) 0.5) := by
  have hchk : checkStudentsTParam v = (.ok () : Except StatFuncError Unit) := by
    simp [checkStudentsTParam, not_le.mpr hv]
  have h1 : ¬((0.5 : α) * v ≤ 0) := not_le.mpr (mul_pos (by norm_num) hv)
  have h2 : ¬((0.5 : α) ≤ 0) := by norm_num
  have hlb : lbeta flgamma ((0.5 : α) * v) 0.5 =
      .ok (lbetaCore flgamma (0.5 * v) 0.5) := by
    simp [lbeta, checkBetaParams, h1, h2]
  have hnew : StudentsT.new flog flgamma v =
      .ok { v := v,
            konst := -(0.5 * flog v + lbetaCore flgamma (0.5 * v) 0.5),
            lnbeta := lbetaCore flgamma (0.5 * v) 0.5 } := by
    simp [StudentsT.new, hchk, hlb, unwrapD]
  refine ⟨hnew, fun s hs => ?_⟩
  have hrec := Except.ok.inj (hnew.symm.trans hs)
  rw [← hrec]
  exact ⟨rfl, rfl⟩

end StudentsTTheorems

/-- Witness for C8 at `v = 4` with dummy `ln ≡ 0`, `lgamma ≡ 0`. -/
theorem studentsT_konst_invariant_witness :
    StudentsT.new (fun _ => (0 : ℚ)) (fun _ => 0) 4 =
      .ok { v := 4,
            konst := -(0.5 * (fun _ => (0 : ℚ)) 4 + lbetaCore (fun _ => (0 : ℚ)) (0.5 * 4) 0.5),
            lnbeta := lbetaCore (fun _ => (0 : ℚ)) (0.5 * 4) 0.5 } :=
  (studentsT_konst_invariant (fun _ => (0 : ℚ)) (fun _ => 0) 4 (by norm_num)).1

/-- Zeta-inlined unfolding of `studentsTCdfF`. -/
theorem studentsTCdfF_eq (fexp flog flgamma : ℚ → ℚ) (fuel : ℕ) (t v : F64)
    (lnb : Option F64) :
    studentsTCdfF fexp flog flgamma fuel t v lnb =
      match betainF fexp flog flgamma fuel ((F64.finite 0.5).mul v) (F64.finite 0.5)
          (v.div (v.add (t.mul t))) lnb with
      | .error e => .error e
      | .ok none => .ok none
      | .ok (some w) =>
        .ok (some (if t.lt (F64.finite 0) then (F64.finite 0.5).mul w
          else (F64.finite 1).sub ((F64.finite 0.5).mul w))) := rfl

/-- Helper: `betainF` succeeds on positive finite shape parameters and a
finite `x` inside `[0, 1]`, whatever the cached `lnbeta`. -/
theorem betainF_ok_of_valid (fexp flog flgamma : ℚ → ℚ) (fuel : ℕ) (pq qv xq : ℚ)
    (hp : 0 < pq) (hq : 0 < qv) (hx0 : 0 ≤ xq) (hx1 : xq ≤ 1) (lnb : Option F64) :
    ∃ o : Option F64,
      betainF fexp flog flgamma fuel (F64.finite pq) (F64.finite qv) (F64.finite xq) lnb =
        .ok o := by
  have hle1 : (F64.finite pq).le (F64.finite 0) = false := by
    simp only [F64.le, decide_eq_false_iff_not, not_le]
    exact hp
  have hle2 : (F64.finite qv).le (F64.finite 0) = false := by
    simp only [F64.le, decide_eq_false_iff_not, not_le]
    exact hq
  have hr1 : (F64.finite 0).le (F64.finite xq) = true := by
    simp only [F64.le, decide_eq_true_eq]
    exact hx0
  have hr2 : (F64.finite xq).le (F64.finite 1) = true := by
    simp only [F64.le, decide_eq_true_eq]
    exact hx1
  have hchk : checkBetaParamsF (F64.finite pq) (F64.finite qv) = .ok () := by
    unfold checkBetaParamsF
    rw [hle1, hle2]
    rfl
  rcases Classical.em (F64.finite xq = F64.finite 0 ∨ F64.finite xq = F64.finite 1) with
    hb | hb
  · refine ⟨some (F64.finite xq), ?_⟩
    unfold betainF
    rw [hchk, hr1, hr2, Bool.and_self, Bool.not_true, if_neg Bool.false_ne_true, if_pos hb]
  · unfold betainF
    rw [hchk, hr1, hr2, Bool.and_self, Bool.not_true, if_neg Bool.false_ne_true, if_neg hb]
    exact ⟨_, rfl⟩

/-- **C7** (amended): for a context constructed from finite `v > 0`, `ldt`
and `dt` return a value for every double `t` (pure IEEE arithmetic, NaN
propagates), and `pt` never fails for every non-NaN `t`: the internal
`betain` call passes validation — for finite `t` its argument
`x = v / (v + t*t)` is finite in `(0, 1]`, and for `t = ±∞` it is exactly the
`x = 0` boundary — and returns `Ok`, so no error reaches the `.unwrap()`.
At `t = NaN` the call does fail; see the counterexample. -/
theorem studentsT_queries_never_fail (fexp flog flgamma : ℚ → ℚ) (vq : ℚ)
    (hv : 0 < vq) (s : StudentsTF)
    (hs : StudentsTF.new flog flgamma (F64.finite vq) = .ok s) (t : F64) (fuel : ℕ) :
    s.ldt flog t = lstudentsTPdfF flog t s.v s.konst ∧
    s.dt fexp flog t = F64.expF fexp (s.ldt flog t) ∧
    (t ≠ F64.nan →
      ∃ o : Option F64, s.pt fexp flog flgamma fuel t = .ok o) := by
  have hle : (F64.finite vq).le (F64.finite 0) = false := by
    simp only [F64.le, decide_eq_false_iff_not, not_le]
    exact hv
  have hsv : s.v = F64.finite vq := by
    simp only [StudentsTF.new, checkStudentsTParamF, hle, Bool.false_eq_true, if_false] at hs
    rw [← Except.ok.inj hs]
  have hpq : (0 : ℚ) < 0.5 * vq := mul_pos (by norm_num) hv
  have hpmul : (F64.finite (0.5 : ℚ)).mul s.v = F64.finite (0.5 * vq) := by
    rw [hsv]
    rfl
  refine ⟨rfl, rfl, fun ht => ?_⟩
  cases t with
  | nan => exact absurd rfl ht
  | posInf =>
    have hx : s.v.div (s.v.add (F64.posInf.mul F64.posInf)) = F64.finite 0 := by
      rw [hsv]
      rfl
    obtain ⟨o, ho⟩ := betainF_ok_of_valid fexp flog flgamma fuel (0.5 * vq) 0.5 0
      hpq (by norm_num) le_rfl (by norm_num) (some s.lnbeta)
    unfold StudentsTF.pt
    rw [studentsTCdfF_eq, hx, hpmul, ho]
    cases o with
    | none => exact ⟨none, rfl⟩
    | some w => exact ⟨_, rfl⟩
  | negInf =>
    have hx : s.v.div (s.v.add (F64.negInf.mul F64.negInf)) = F64.finite 0 := by
      rw [hsv]
      rfl
    obtain ⟨o, ho⟩ := betainF_ok_of_valid fexp flog flgamma fuel (0.5 * vq) 0.5 0
      hpq (by norm_num) le_rfl (by norm_num) (some s.lnbeta)
    unfold StudentsTF.pt
    rw [studentsTCdfF_eq, hx, hpmul, ho]
    cases o with
    | none => exact ⟨none, rfl⟩
    | some w => exact ⟨_, rfl⟩
  | finite tq =>
    have hbpos : (0 : ℚ) < vq + tq * tq := add_pos_of_pos_of_nonneg hv (mul_self_nonneg tq)
    have hmul : (F64.finite tq).mul (F64.finite tq) = F64.finite (tq * tq) := rfl
    have hadd : (F64.finite vq).add (F64.finite (tq * tq)) = F64.finite (vq + tq * tq) := rfl
    have hx : s.v.div (s.v.add ((F64.finite tq).mul (F64.finite tq))) =
        F64.finite (vq / (vq + tq * tq)) := by
      rw [hsv, hmul, hadd]
      show (if vq + tq * tq = 0 then
          (if vq = 0 then F64.nan else if 0 < vq then F64.posInf else F64.negInf)
        else F64.finite (vq / (vq + tq * tq))) = F64.finite (vq / (vq + tq * tq))
      rw [if_neg hbpos.ne']
    obtain ⟨o, ho⟩ := betainF_ok_of_valid fexp flog flgamma fuel (0.5 * vq) 0.5
      (vq / (vq + tq * tq)) hpq (by norm_num)
      (le_of_lt (div_pos hv hbpos))
      ((div_le_one hbpos).mpr (le_add_of_nonneg_right (mul_self_nonneg tq)))
      (some s.lnbeta)
    unfold StudentsTF.pt
    rw [studentsTCdfF_eq, hx, hpmul, ho]
    cases o with
    | none => exact ⟨none, rfl⟩
    | some w => exact ⟨_, rfl⟩

/-- **C7** (counterexample): with the validly constructed `v = 1` context,
`pt(NaN)` *does* fail: `x = v / (v + NaN*NaN)` is NaN, the IEEE range test
`!(0.0..=1.0).contains(&NaN)` is true (both comparisons with NaN are false),
`betain` returns the invalid-probability error, and the source's `.unwrap()`
panics — the resurfaced validation error the claim rules out. -/
theorem studentsT_pt_nan_counterexample :
    StudentsTF.new (fun _ => 0) (fun _ => 0) (F64.finite 1) =
      .ok { v := F64.finite 1, konst := F64.finite 0, lnbeta := F64.finite 0 } ∧
    StudentsTF.pt { v := F64.finite 1, konst := F64.finite 0, lnbeta := F64.finite 0 }
      (fun _ => 0) (fun _ => 0) (fun _ => 0) 1 F64.nan =
      .error StatFuncError.invalidProbability := by
  constructor
  · have h10 : ¬((1 : ℚ) ≤ 0) := by norm_num
    have h05 : ¬((0.5 : ℚ) * 1 ≤ 0) := by norm_num
    have h05b : ¬((0.5 : ℚ) ≤ 0) := by norm_num
    have hlt : ¬((1 : ℚ) < 0) := by norm_num
    have hne : (1 : ℚ) ≠ 0 := by norm_num
    simp [StudentsTF.new, checkStudentsTParamF, lbetaF, checkBetaParamsF, unwrapD,
      F64.le, F64.mul, F64.lgammaF, F64.add, F64.sub, F64.neg, F64.logF,
      h10, h05, h05b, hlt, hne]
  · have hA : ((F64.finite 0.5).mul (F64.finite 1)).le (F64.finite 0) = false := by
      show (F64.finite ((0.5 : ℚ) * 1)).le (F64.finite 0) = false
      simp only [F64.le, decide_eq_false_iff_not, not_le]
      norm_num
    have hB : (F64.finite (0.5 : ℚ)).le (F64.finite 0) = false := by
      simp only [F64.le, decide_eq_false_iff_not, not_le]
      norm_num
    have hchk : checkBetaParamsF ((F64.finite 0.5).mul (F64.finite 1))
        (F64.finite 0.5) = .ok () := by
      unfold checkBetaParamsF
      rw [hA, hB]
      rfl
    have hrange : ((F64.finite 0).le F64.nan && F64.nan.le (F64.finite 1)) = false := rfl
    have hbet : betainF (fun _ => 0) (fun _ => 0) (fun _ => 0) 1
        ((F64.finite 0.5).mul (F64.finite 1)) (F64.finite 0.5) F64.nan
        (some (F64.finite 0)) = .error .invalidProbability := by
      unfold betainF
      rw [hchk, hrange]
      rfl
    have hx : (F64.finite 1).div ((F64.finite 1).add (F64.nan.mul F64.nan)) = F64.nan := rfl
    have hv1 : (StudentsTF.mk (F64.finite 1) (F64.finite 0) (F64.finite 0)).v =
        F64.finite 1 := rfl
    have hl1 : (StudentsTF.mk (F64.finite 1) (F64.finite 0) (F64.finite 0)).lnbeta =
        F64.finite 0 := rfl
    unfold StudentsTF.pt
    rw [studentsTCdfF_eq, hv1, hl1, hx, hbet]

/-- Witness for the amended C7 at `v = 4`, `t = 3`, fuel 5: `pt` returns
`Ok`. -/
theorem studentsT_queries_never_fail_witness :
    ∃ o : Option F64,
      StudentsTF.pt { v := F64.finite 4, konst := F64.finite 0, lnbeta := F64.finite 0 }
        (fun _ => 0) (fun _ => 0) (fun _ => 0) 5 (F64.finite 3) = .ok o := by
  have hs : StudentsTF.new (fun _ => (0 : ℚ)) (fun _ => 0) (F64.finite 4) =
      .ok { v := F64.finite 4, konst := F64.finite 0, lnbeta := F64.finite 0 } := by
    have h40 : ¬((4 : ℚ) ≤ 0) := by norm_num
    have h05 : ¬((0.5 : ℚ) * 4 ≤ 0) := by norm_num
    have h05b : ¬((0.5 : ℚ) ≤ 0) := by norm_num
    have hlt : ¬((4 : ℚ) < 0) := by norm_num
    have hne : (4 : ℚ) ≠ 0 := by norm_num
    simp [StudentsTF.new, checkStudentsTParamF, lbetaF, checkBetaParamsF, unwrapD,
      F64.le, F64.mul, F64.lgammaF, F64.add, F64.sub, F64.neg, F64.logF,
      h40, h05, h05b, hlt, hne]
  exact (studentsT_queries_never_fail (fun _ => 0) (fun _ => 0) (fun _ => 0) 4
    (by norm_num) _ hs (F64.finite 3) 5).2.2 (fun h => F64.noConfusion h)

section FreeVsMethod

variable {α : Type} [LinearOrderedField α] [FloorRing α]

/-- A cached `lnbeta` equal to the internally recomputed `_lbeta(p, q)` gives
the same `betain` result as passing none. -/
theorem betain_cached_lnbeta (fexp flog flgamma : α → α) (fuel : ℕ) (p q x : α) :
    betain fexp flog flgamma fuel p q x (some (lbetaCore flgamma p q)) =
      betain fexp flog flgamma fuel p q x none := by
  unfold betain
  cases checkBetaParams p q <;> rfl

/-- The same, lifted to the Student's-t CDF helper with its `0.5 * v, 0.5`
shape parameters. -/
theorem studentsTCdf_cached (fexp flog flgamma : α → α) (fuel : ℕ) (t v : α) :
    studentsTCdf fexp flog flgamma fuel t v (some (lbetaCore flgamma (0.5 * v) 0.5)) =
      studentsTCdf fexp flog flgamma fuel t v none := by
  simp only [studentsTCdf, betain_cached_lnbeta]

end FreeVsMethod

/-- **C9**: at the real idealisation (`exp = Real.exp`, `ln = Real.log`,
`lgamma = log ∘ Γ`, `PI = π`), the free functions `ldt`, `dt`, `pt` return
`Ok` of exactly the values of the corresponding methods of the context built
with the same `v`: the two normalising constants coincide because
`lgamma(1/2) = (ln π)/2` (from `Γ(1/2) = √π`), and the `lnbeta` cached by the
constructor is exactly the value `betain` recomputes when none is supplied. -/
theorem studentsT_free_functions_match_methods (v t : ℝ) (fuel : ℕ) (hv : 0 < v) :
    ∃ s : StudentsT ℝ,
      StudentsT.new Real.log (fun y => Real.log (Real.Gamma y)) v = .ok s ∧
      ldtFree Real.log (fun y => Real.log (Real.Gamma y)) Real.pi t v =
        .ok (s.ldt Real.log t) ∧
      dtFree Real.exp Real.log (fun y => Real.log (Real.Gamma y)) Real.pi t v =
        .ok (s.dt Real.exp Real.log t) ∧
      ptFree Real.exp Real.log (fun y => Real.log (Real.Gamma y)) fuel t v =
        .ok (s.pt Real.exp Real.log (fun y => Real.log (Real.Gamma y)) fuel t) := by
  have hchk : checkStudentsTParam v = (.ok () : Except StatFuncError Unit) := by
    simp [checkStudentsTParam, not_le.mpr hv]
  have h1 : ¬((0.5 : ℝ) * v ≤ 0) := not_le.mpr (mul_pos (by norm_num) hv)
  have h2 : ¬((0.5 : ℝ) ≤ 0) := by norm_num
  have hlb : lbeta (fun y => Real.log (Real.Gamma y)) ((0.5 : ℝ) * v) 0.5 =
      .ok (lbetaCore (fun y => Real.log (Real.Gamma y)) (0.5 * v) 0.5) := by
    simp [lbeta, checkBetaParams, h1, h2]
  have harg : (0.5 : ℝ) * (v + 1) = 0.5 * v + 0.5 := by ring
  have hlogmul : Real.log (v * Real.pi) = Real.log v + Real.log Real.pi :=
    Real.log_mul (ne_of_gt hv) Real.pi_ne_zero
  have hgammahalf : Real.log (Real.Gamma (0.5 : ℝ)) = Real.log Real.pi / 2 := by
    rw [show (0.5 : ℝ) = 1 / 2 by norm_num, Real.Gamma_one_half_eq,
      Real.log_sqrt Real.pi_pos.le]
  have hkonst : Real.log (Real.Gamma (0.5 * (v + 1))) - Real.log (Real.Gamma (0.5 * v)) -
      0.5 * Real.log (v * Real.pi) =
      -(0.5 * Real.log v + lbetaCore (fun y => Real.log (Real.Gamma y)) (0.5 * v) 0.5) := by
    simp only [lbetaCore, harg, hlogmul, hgammahalf]
    ring
  refine ⟨{ v := v,
            konst := -(0.5 * Real.log v +
              lbetaCore (fun y => Real.log (Real.Gamma y)) (0.5 * v) 0.5),
            lnbeta := lbetaCore (fun y => Real.log (Real.Gamma y)) (0.5 * v) 0.5 },
    ?_, ?_, ?_, ?_⟩
  · simp [StudentsT.new, hchk, hlb, unwrapD]
  · simp only [ldtFree, hchk, StudentsT.ldt]
    rw [hkonst]
  · simp only [dtFree, ldtFree, hchk, Except.map, StudentsT.dt, studentsTPdf, StudentsT.ldt]
    rw [hkonst]
  · simp only [ptFree, hchk]
    exact congrArg Except.ok
      (studentsTCdf_cached Real.exp Real.log (fun y => Real.log (Real.Gamma y)) fuel t v).symm

/-- Witness for C9 at `v = 4`, `t = 0`, fuel `0`. -/
theorem studentsT_free_functions_match_methods_witness :
    ∃ s : StudentsT ℝ,
      StudentsT.new Real.log (fun y => Real.log (Real.Gamma y)) 4 = .ok s ∧
      ldtFree Real.log (fun y => Real.log (Real.Gamma y)) Real.pi 0 4 =
        .ok (s.ldt Real.log 0) ∧
      dtFree Real.exp Real.log (fun y => Real.log (Real.Gamma y)) Real.pi 0 4 =
        .ok (s.dt Real.exp Real.log 0) ∧
      ptFree Real.exp Real.log (fun y => Real.log (Real.Gamma y)) 0 0 4 =
        .ok (s.pt Real.exp Real.log (fun y => Real.log (Real.Gamma y)) 0 0) :=
  studentsT_free_functions_match_methods 4 0 0 (by norm_num)

end StatFunctions
